import Mathlib

/-!
Verification of the Mikoshi terminal-emulator core.

Shallow embedding of `src/terminal_state.rs` (display state: scrollback,
input line, command history, viewport, selection) and of the input path of
`src/terminal.rs` (`write_input` filtering and the writer thread's chunk
handling).  Rust `String`s are modelled as lists of UTF-8 bytes
(`Str := List Nat`), `VecDeque` as `List` with `push_back = ++ [x]` and
`pop_front = drop 1`, and machine `usize` arithmetic as `Nat` (Rust
`saturating_sub` is exactly `Nat` subtraction).  Operations that can panic
in Rust (`String::remove` off a char boundary) return `Option`.
-/

set_option linter.unusedVariables false

abbrev Str := List Nat

def MAX_HISTORY_LINES : Nat := 1000

def MAX_COMMAND_HISTORY : Nat := 100

structure Color where
  r : Nat
  g : Nat
  b : Nat
deriving DecidableEq, Repr

def Color.RGB (r g b : Nat) : Color := ⟨r, g, b⟩

structure Position where
  line : Nat
  column : Nat
deriving DecidableEq, Repr

structure Selection where
  start : Position
  «end» : Position
deriving DecidableEq, Repr

/-- `Selection::normalize` from `terminal_state.rs`: orders the two
endpoints of the drag by (line, column). -/
def Selection.normalize (s : Selection) : Position × Position :=
  if s.start.line < s.«end».line ∨
     (s.start.line = s.«end».line ∧ s.start.column ≤ s.«end».column) then
    (⟨s.start.line, s.start.column⟩, ⟨s.«end».line, s.«end».column⟩)
  else
    (⟨s.«end».line, s.«end».column⟩, ⟨s.start.line, s.start.column⟩)

structure TerminalColors where
  text : Color
  background : Color
  selection : Color
  cursor : Color
  input : Color
deriving DecidableEq, Repr

def TerminalColors.default : TerminalColors :=
  { text := Color.RGB 0 255 170
    background := Color.RGB 10 10 30
    selection := Color.RGB 70 70 150
    cursor := Color.RGB 255 255 255
    input := Color.RGB 200 200 255 }

structure TerminalSettings where
  fontSize : Nat
  colors : TerminalColors
  prompt : Str
deriving DecidableEq, Repr

/-- Default settings: font size 16 and the prompt `"$ "` (bytes 36, 32). -/
def TerminalSettings.default : TerminalSettings :=
  { fontSize := 16, colors := TerminalColors.default, prompt := [36, 32] }

structure TerminalViewport where
  offset : Nat
  visibleLines : Nat
  lineHeight : Nat
  width : Nat
  height : Nat
deriving DecidableEq, Repr

structure TerminalState where
  history : List Str
  currentInput : Str
  cursorPosition : Nat
  settings : TerminalSettings
  viewport : TerminalViewport
  selection : Option Selection
  commandHistory : List Str
  commandIndex : Option Nat
  visibleLines : Nat
deriving DecidableEq, Repr

/-- `TerminalState::new`. -/
def TerminalState.new (width height lineHeight : Nat) : TerminalState :=
  let visibleLines := height / lineHeight
  { history := []
    currentInput := []
    cursorPosition := 0
    settings := TerminalSettings.default
    viewport :=
      { offset := 0, visibleLines := visibleLines, lineHeight := lineHeight
        width := width, height := height }
    selection := none
    commandHistory := []
    commandIndex := none
    visibleLines := visibleLines }

/-- Substring search: does `hay` contain `needle` as a contiguous run?
Models Rust `str::contains` on the byte level. -/
def containsSeq (needle : Str) : Str → Bool
  | [] => needle.isEmpty
  | c :: t => needle.isPrefixOf (c :: t) || containsSeq needle t

/-- The screen-clear test of `add_output`: a literal `ESC [ H ESC [ 2 J`
or a form-feed byte `0x0C`. -/
def containsClearSeq (out : Str) : Bool :=
  containsSeq [27, 91, 72, 27, 91, 50, 74] out || containsSeq [12] out

/-- `str::split_inclusive('\n')` on bytes: each segment keeps its
terminating newline, and there is no trailing empty segment. -/
def splitIncl : Str → List Str
  | [] => []
  | c :: t =>
    if c = 10 then [c] :: splitIncl t
    else
      match splitIncl t with
      | [] => [[c]]
      | h :: r => (c :: h) :: r

/-- The per-line map of `str::lines`: strip one trailing `\n`, and then a
trailing `\r` only when a `\n` was stripped. -/
def lineMap (seg : Str) : Str :=
  if seg.getLast? = some 10 then
    let seg := seg.dropLast
    if seg.getLast? = some 13 then seg.dropLast else seg
  else seg

/-- Rust `str::lines` on bytes (the `\n`/`\r\n` bytes are never UTF-8
continuation bytes, so the byte-level split agrees with the char one). -/
def rustLines (s : Str) : List Str :=
  (splitIncl s).map lineMap

/-- One scrollback append of `add_output`: pop the oldest line when at
capacity, then push the new one. -/
def pushLine (h : List Str) (line : Str) : List Str :=
  (if MAX_HISTORY_LINES ≤ h.length then h.drop 1 else h) ++ [line]

/-- `TerminalState::clear`. -/
def TerminalState.clear (s : TerminalState) : TerminalState :=
  { s with history := [], viewport := { s.viewport with offset := 0 }
           selection := none }

/-- `TerminalState::scroll_to_bottom`. -/
def TerminalState.scroll_to_bottom (s : TerminalState) : TerminalState :=
  { s with viewport := { s.viewport with offset := 0 }, selection := none }

/-- `TerminalState::add_output`. -/
def TerminalState.add_output (s : TerminalState) (output : Str) : TerminalState :=
  if containsClearSeq output then s.clear
  else
    let s := { s with history := (rustLines output).foldl pushLine s.history }
    if s.viewport.offset = 0 then s.scroll_to_bottom else s

/-- `TerminalState::scroll_up` (the offset is clamped to
`len − (visibleLines − 1)`, all subtraction saturating). -/
def TerminalState.scroll_up (s : TerminalState) (lines : Nat) : TerminalState :=
  let maxScroll := s.history.length - (s.viewport.visibleLines - 1)
  { s with viewport := { s.viewport with offset := min (s.viewport.offset + lines) maxScroll }
           selection := none }

/-- `TerminalState::scroll_down` (saturating at 0). -/
def TerminalState.scroll_down (s : TerminalState) (lines : Nat) : TerminalState :=
  { s with viewport := { s.viewport with offset := s.viewport.offset - lines }
           selection := none }

/-- `TerminalState::get_visible_range`. -/
def TerminalState.get_visible_range (s : TerminalState) : Nat × Nat :=
  let totalLines := s.history.length
  let visibleLines := s.viewport.visibleLines - 1
  (totalLines - (visibleLines + s.viewport.offset), totalLines - s.viewport.offset)

/-- `TerminalState::get_visible_content`: the scrollback window, plus the
prompt + live-input row exactly when the offset is 0. -/
def TerminalState.get_visible_content (s : TerminalState) : List (Str × Color) :=
  let range := s.get_visible_range
  let result := ((s.history.drop range.1).take (range.2 - range.1)).map
    (fun line => (line, s.settings.colors.text))
  if s.viewport.offset = 0 then
    result ++ [(s.settings.prompt ++ s.currentInput, s.settings.colors.input)]
  else result

/-- `TerminalState::commit_input`. -/
def TerminalState.commit_input (s : TerminalState) : TerminalState :=
  let input := s.currentInput
  let s := { s with currentInput := [] }
  let s :=
    if input ≠ [] then
      let ch := s.commandHistory ++ [input]
      { s with commandHistory := if MAX_COMMAND_HISTORY < ch.length then ch.drop 1 else ch }
    else s
  let s := s.add_output (s.settings.prompt ++ input ++ [10])
  { s with cursorPosition := 0, commandIndex := none, selection := none }

/-- `TerminalState::handle_key_up`. -/
def TerminalState.handle_key_up (s : TerminalState) : TerminalState :=
  if s.commandHistory.isEmpty then s
  else
    let currentIndex := s.commandIndex.getD s.commandHistory.length
    let s := { s with commandIndex := some currentIndex }
    if 0 < currentIndex then
      let i := currentIndex - 1
      let entry := s.commandHistory.getD i []
      { s with commandIndex := some i, currentInput := entry
               cursorPosition := entry.length }
    else s

/-- `TerminalState::handle_key_down`. -/
def TerminalState.handle_key_down (s : TerminalState) : TerminalState :=
  match s.commandIndex with
  | none => s
  | some index =>
    if index < s.commandHistory.length - 1 then
      let i := index + 1
      let entry := s.commandHistory.getD i []
      { s with commandIndex := some i, currentInput := entry
               cursorPosition := entry.length }
    else
      { s with currentInput := [], commandIndex := none, cursorPosition := 0 }

/-- `TerminalState::add_input` (cursor advances by the byte length). -/
def TerminalState.add_input (s : TerminalState) (input : Str) : TerminalState :=
  { s with commandIndex := none
           currentInput := s.currentInput ++ input
           cursorPosition := s.cursorPosition + input.length }

/-- Byte length of the UTF-8 character whose lead byte is `b`. -/
def utf8Width (b : Nat) : Nat :=
  if b < 128 then 1 else if b < 224 then 2 else if b < 240 then 3 else 4

/-- Rust `String::remove(idx)`: `none` models the panic when `idx` is at
or past the end, or does not lie on a char boundary (a continuation byte
`0x80..0xBF` sits there). -/
def stringRemove (bytes : Str) (idx : Nat) : Option Str :=
  match bytes.get? idx with
  | none => none
  | some b =>
    if b < 128 ∨ 192 ≤ b then
      some (bytes.take idx ++ bytes.drop (idx + utf8Width b))
    else none

/-- `TerminalState::handle_backspace`; `none` models a panic inside
`String::remove`. -/
def TerminalState.handle_backspace (s : TerminalState) : Option TerminalState :=
  if 0 < s.cursorPosition then
    let c := s.cursorPosition - 1
    match stringRemove s.currentInput c with
    | some rest =>
      some { s with cursorPosition := c, currentInput := rest, commandIndex := none }
    | none => none
  else some s

/-- Rust `str::is_char_boundary(index)`: true at 0 and at the length,
false past the end, and at an interior index true iff the byte there is
not a UTF-8 continuation byte (`0x80..0xBF`). -/
def isCharBoundary (bytes : Str) (index : Nat) : Bool :=
  if index = 0 then true
  else
    match bytes.get? index with
    | none => index == bytes.length
    | some b => decide (b < 128) || decide (192 ≤ b)

/-- Rust string slicing `&line[a..b]`: `none` models the panic when
`a > b` or either index is not a char boundary (an out-of-range `b` also
fails the boundary test). -/
def stringSlice (bytes : Str) (a b : Nat) : Option Str :=
  if a ≤ b ∧ isCharBoundary bytes a = true ∧ isCharBoundary bytes b = true then
    some ((bytes.drop a).take (b - a))
  else none

/-- The loop body of `get_text_from_selection`, indexing visible lines
from `i`; `none` models a panic of the slice `&line[lineStart..lineEnd]`
(which the Rust code executes whenever `lineStart < line.len()`). -/
def selLoop (a b : Position) : List (Str × Color) → Nat → Str → Option Str
  | [], _, result => some result
  | (line, _) :: rest, i, result =>
    if i < a.line ∨ b.line < i then selLoop a b rest (i + 1) result
    else
      let lineStart := if i = a.line then a.column else 0
      let lineEnd := if i = b.line then min b.column line.length else line.length
      let result := if result.isEmpty then result else result ++ [10]
      if lineStart < line.length then
        match stringSlice line lineStart lineEnd with
        | some piece => selLoop a b rest (i + 1) (result ++ piece)
        | none => none
      else selLoop a b rest (i + 1) result

/-- `TerminalState::get_text_from_selection`; `none` models a panic. -/
def TerminalState.get_text_from_selection (s : TerminalState) (sel : Selection) : Option Str :=
  let norm := sel.normalize
  selLoop norm.1 norm.2 s.get_visible_content 0 []

/-- `TerminalState::get_selected_text`; `none` models a panic. -/
def TerminalState.get_selected_text (s : TerminalState) : Option Str :=
  match s.selection with
  | some sel => s.get_text_from_selection sel
  | none => some []

/-- `Terminal::write_input` from `terminal.rs`: the byte filter applied
before a chunk is queued for the writer thread
(`is_ascii_graphic || is_ascii_whitespace || c == 0x08`). -/
def byteAllowed (c : Nat) : Bool :=
  (33 ≤ c && c ≤ 126) || (c = 32 || c = 9 || c = 10 || c = 12 || c = 13) || c = 8

def write_input (input : List Nat) : List Nat :=
  input.filter byteAllowed

/-- State of the writer thread of `Terminal::handle_input`: the exit flag,
the bytes written to the child's stdin, and the interrupts delivered. -/
structure InputThreadState where
  shouldExit : Bool
  written : List Nat
  interrupts : Nat
deriving DecidableEq, Repr

/-- One iteration of the writer-thread loop of `Terminal::handle_input` on
a received chunk (a no-op once the exit flag is set, matching the loop's
`break`). -/
def handleInputChunk (s : InputThreadState) (input : List Nat) : InputThreadState :=
  if s.shouldExit then s
  else if input = [3] then { s with interrupts := s.interrupts + 1 }
  else if input = [4] then { s with shouldExit := true }
  else if input = [8] ∨ input = [127] then { s with written := s.written ++ [8] }
  else { s with written := s.written ++ input }

/-- The writer thread of `Terminal::handle_input`, run over a queue of
chunks. -/
def handle_input (s : InputThreadState) (chunks : List (List Nat)) : InputThreadState :=
  chunks.foldl handleInputChunk s

example : rustLines [97, 10, 98] = [[97], [98]] := by decide
example : rustLines [97, 13, 10] = [[97]] := by decide
example : rustLines [97, 13] = [[97, 13]] := by decide
example : rustLines [10] = [[]] := by decide
example : rustLines [] = [] := by decide
example : containsClearSeq [12] = true := by decide
example : containsClearSeq [97, 27, 91, 72, 27, 91, 50, 74, 98] = true := by decide
example : containsClearSeq [97, 98] = false := by decide

theorem write_input_ne_eot (input : List Nat) : write_input input ≠ [4] := by
  intro h
  have hm : (4 : Nat) ∈ write_input input := by rw [h]; exact List.mem_singleton.mpr rfl
  have hp := (List.mem_filter.mp hm).2
  have : byteAllowed 4 = false := by decide
  rw [this] at hp
  cases hp

theorem handleInputChunk_preserves (s : InputThreadState) (chunk : List Nat)
    (h : chunk ≠ [4]) : (handleInputChunk s chunk).shouldExit = s.shouldExit := by
  unfold handleInputChunk
  split_ifs <;> simp_all

theorem handle_input_filtered_no_exit (chunks : List (List Nat)) :
    ∀ s : InputThreadState, s.shouldExit = false →
      (handle_input s (chunks.map write_input)).shouldExit = false := by
  induction chunks with
  | nil => intro s h; simpa [handle_input] using h
  | cons c t ih =>
    intro s h
    simp only [List.map_cons, handle_input, List.foldl_cons]
    apply ih
    rw [handleInputChunk_preserves s (write_input c) (write_input_ne_eot c)]
    exact h

/-- C1: the byte `0x04` never survives the `write_input` filter, so the
writer thread's end-of-transmission branch is unreachable through
`write_input` and the exit flag is never set: `write_input [0x04]` queues
the empty chunk, and for every sequence of `write_input` calls the writer
thread finishes with `shouldExit = false` — even though the thread itself
would set the flag had the raw chunk `[0x04]` reached it. This refutes
the claim that a `0x04` passed to `write_input` makes `should_exit()`
true, and exhibits the code bug (the call sites intend `[4]` to mean
end-of-transmission). -/
theorem write_input_eot_unreachable :
    write_input [4] = [] ∧
    (handle_input ⟨false, [], 0⟩ [[4]]).shouldExit = true ∧
    ∀ chunks : List (List Nat),
      (handle_input ⟨false, [], 0⟩ (chunks.map write_input)).shouldExit = false :=
  ⟨by decide, by decide, fun chunks => handle_input_filtered_no_exit chunks _ rfl⟩

def c9state : TerminalState :=
  { history := [[97], [98], [99]], currentInput := [120], cursorPosition := 1,
    settings := TerminalSettings.default,
    viewport := { offset := 2, visibleLines := 2, lineHeight := 16, width := 1000, height := 32 },
    selection := some ⟨⟨0, 0⟩, ⟨0, 1⟩⟩, commandHistory := [], commandIndex := none,
    visibleLines := 2 }

/-- C9: `add_output` on text containing a literal screen-clear sequence
empties the scrollback, resets the viewport offset to 0 and clears the
selection, whatever the prior state — in particular no line of the text
is appended. -/
theorem add_output_clear_screen (s : TerminalState) (out : Str)
    (h : containsClearSeq out = true) :
    (s.add_output out).history = [] ∧
    (s.add_output out).viewport.offset = 0 ∧
    (s.add_output out).selection = none := by
  simp [TerminalState.add_output, h, TerminalState.clear]

/-- Witness for `add_output_clear_screen`: a form feed amid other text
clears a populated, scrolled-back, selected state. -/
theorem add_output_clear_screen_witness :
    (c9state.add_output [100, 12, 101]).history = [] ∧
    (c9state.add_output [100, 12, 101]).viewport.offset = 0 ∧
    (c9state.add_output [100, 12, 101]).selection = none :=
  add_output_clear_screen c9state [100, 12, 101] (by decide)

def c3state : TerminalState :=
  { history := [[97], [98], [99]], currentInput := [], cursorPosition := 0,
    settings := TerminalSettings.default,
    viewport := { offset := 0, visibleLines := 2, lineHeight := 16, width := 1000, height := 32 },
    selection := none, commandHistory := [], commandIndex := none, visibleLines := 2 }

/-- C3, counterexample: with scrollback `["a","b","c"]`, `visibleLines = 2`
and offset 0, the visible content excluding the input line is NOT
`["b","c"]` (one of the two rows is reserved for the input line, so the
window holds a single scrollback line), and after `scroll_up 1` the
visible content is not `["a","b"]`. -/
theorem visible_scenario_ce :
    ¬ (((c3state.get_visible_content.map Prod.fst).dropLast = [[98], [99]]) ∧
       (c3state.scroll_up 1).viewport.offset = 1 ∧
       ((c3state.scroll_up 1).get_visible_content.map Prod.fst) = [[97], [98]]) := by
  decide

/-- C3, amended: with scrollback `["a","b","c"]` (`[97]/[98]/[99]`),
`visibleLines = 2` and offset 0, the visible content is the single
scrollback line `"c"` followed by the prompt row; after `scroll_up 1`
the offset is 1 and the visible content is `["b"]` with no input row. -/
theorem visible_scenario :
    (c3state.get_visible_content.map Prod.fst).dropLast = [[99]] ∧
    (c3state.get_visible_content.map Prod.fst) = [[99], [36, 32]] ∧
    (c3state.scroll_up 1).viewport.offset = 1 ∧
    ((c3state.scroll_up 1).get_visible_content.map Prod.fst) = [[98]] := by
  decide

def c5state : TerminalState :=
  { history := [[97], [98], [99], [100], [101]], currentInput := [], cursorPosition := 0,
    settings := TerminalSettings.default,
    viewport := { offset := 3, visibleLines := 2, lineHeight := 16, width := 1000, height := 32 },
    selection := none, commandHistory := [], commandIndex := none, visibleLines := 2 }

/-- C5, counterexample: with 5 scrollback lines, `visibleLines = 2` and
offset 3, `scroll_up 3` clamps the offset to 4, so the following
`scroll_down 3` lands on 1, not on the original 3. -/
theorem scroll_roundtrip_ce :
    ¬ ((c5state.scroll_up 3).scroll_down 3).viewport.offset = c5state.viewport.offset := by
  decide

/-- C5, amended: `scroll_up n` followed by `scroll_down n` restores the
original offset whenever `offset + n` does not exceed the clamp bound
`scrollbackLen − (visibleLines − 1)`; when the upward clamp engages the
round trip undershoots. -/
theorem scroll_roundtrip (s : TerminalState) (n : Nat)
    (h : s.viewport.offset + n ≤ s.history.length - (s.viewport.visibleLines - 1)) :
    ((s.scroll_up n).scroll_down n).viewport.offset = s.viewport.offset := by
  simp only [TerminalState.scroll_up, TerminalState.scroll_down]
  omega

/-- Witness for `scroll_roundtrip`: offset 3, one step up and down inside
the clamp bound 4. -/
theorem scroll_roundtrip_witness :
    ((c5state.scroll_up 1).scroll_down 1).viewport.offset = c5state.viewport.offset :=
  scroll_roundtrip c5state 1 (by decide)

/-- C10: `handle_backspace` is not total. After `add_input` of the
two-byte UTF-8 character `é` (`[195, 169]`) the byte cursor sits at 2;
backspace decrements it to 1 and calls `String::remove` at byte index 1,
which is a continuation byte and not a char boundary, so the Rust code
panics (modelled as `none`). -/
theorem handle_backspace_panics_multibyte :
    ((TerminalState.new 1000 800 16).add_input [195, 169]).handle_backspace = none := by
  decide

theorem pushLine_of_lt (h : List Str) (l : Str) (hlt : h.length < MAX_HISTORY_LINES) :
    pushLine h l = h ++ [l] := by
  unfold pushLine
  rw [if_neg (by omega)]

theorem pushLine_of_full (h : List Str) (l : Str) (heq : MAX_HISTORY_LINES ≤ h.length) :
    pushLine h l = h.drop 1 ++ [l] := by
  unfold pushLine
  rw [if_pos heq]

theorem foldl_pushLine_eq (ls : List Str) :
    ∀ h : List Str, h.length ≤ MAX_HISTORY_LINES →
      ls.foldl pushLine h = (h ++ ls).drop (h.length + ls.length - MAX_HISTORY_LINES) := by
  induction ls with
  | nil =>
    intro h hle
    have hz : h.length + ([] : List Str).length - MAX_HISTORY_LINES = 0 := by
      simp only [List.length_nil]
      omega
    rw [hz]
    simp
  | cons l t ih =>
    intro h hle
    rw [List.foldl_cons]
    rcases Nat.lt_or_ge h.length MAX_HISTORY_LINES with hlt | hge
    · rw [pushLine_of_lt h l hlt, ih (h ++ [l]) (by simp; omega)]
      have e1 : (h ++ [l]) ++ t = h ++ l :: t := by simp
      have e2 : (h ++ [l]).length + t.length - MAX_HISTORY_LINES
              = h.length + (l :: t).length - MAX_HISTORY_LINES := by
        simp
        omega
      rw [e1, e2]
    · have heq : h.length = MAX_HISTORY_LINES := le_antisymm hle hge
      rw [pushLine_of_full h l hge,
        ih (h.drop 1 ++ [l])
          (by have hM : MAX_HISTORY_LINES = 1000 := rfl; simp; omega)]
      obtain ⟨a, h', rfl⟩ : ∃ a h', h = a :: h' := by
        cases h with
        | nil => simp [MAX_HISTORY_LINES] at heq
        | cons a h' => exact ⟨a, h', rfl⟩
      have hlen : h'.length + 1 = MAX_HISTORY_LINES := by simpa using heq
      have e1 : (a :: h').drop 1 ++ [l] ++ t = h' ++ l :: t := by simp
      have e2 : ((a :: h').drop 1 ++ [l]).length + t.length - MAX_HISTORY_LINES
          = t.length := by
        simp
        omega
      have e3 : (a :: h') ++ l :: t = a :: (h' ++ l :: t) := by simp
      have e4 : (a :: h').length + (l :: t).length - MAX_HISTORY_LINES
          = t.length + 1 := by
        simp
        omega
      rw [e1, e2, e3, e4, List.drop_succ_cons]

theorem foldl_pushLine_length (ls : List Str) (h : List Str)
    (hle : h.length ≤ MAX_HISTORY_LINES) :
    (ls.foldl pushLine h).length ≤ MAX_HISTORY_LINES := by
  rw [foldl_pushLine_eq ls h hle]
  simp only [List.length_drop, List.length_append]
  omega

theorem add_output_history_le (s : TerminalState) (out : Str)
    (hcap : s.history.length ≤ MAX_HISTORY_LINES) :
    (s.add_output out).history.length ≤ MAX_HISTORY_LINES := by
  unfold TerminalState.add_output
  split
  · simp [TerminalState.clear]
  · dsimp only
    split <;> simp [TerminalState.scroll_to_bottom, foldl_pushLine_length _ _ hcap]

theorem foldl_add_output_le (outs : List Str) :
    ∀ s : TerminalState, s.history.length ≤ MAX_HISTORY_LINES →
      (outs.foldl TerminalState.add_output s).history.length ≤ MAX_HISTORY_LINES := by
  induction outs with
  | nil => intro s h; simpa using h
  | cons o t ih =>
    intro s h
    rw [List.foldl_cons]
    exact ih _ (add_output_history_le s o h)

theorem add_output_history_eq (s : TerminalState) (out : Str)
    (hcap : s.history.length ≤ MAX_HISTORY_LINES)
    (hclear : containsClearSeq out = false) :
    (s.add_output out).history =
      (s.history ++ rustLines out).drop
        (s.history.length + (rustLines out).length - MAX_HISTORY_LINES) := by
  unfold TerminalState.add_output
  rw [if_neg (by simp [hclear])]
  dsimp only
  split <;> simp [TerminalState.scroll_to_bottom, foldl_pushLine_eq _ _ hcap]

/-- C2: scrollback capacity and FIFO order. From any state within
capacity, (i) after any sequence of `add_output` calls the scrollback
length never exceeds 1000, and (ii) a single `add_output` without a
screen-clear sequence appends the decoded lines in order at the tail and
drops exactly the oldest lines once the total passes 1000. -/
theorem add_output_capacity_fifo (s : TerminalState)
    (hcap : s.history.length ≤ MAX_HISTORY_LINES) :
    (∀ outs : List Str,
        (outs.foldl TerminalState.add_output s).history.length ≤ MAX_HISTORY_LINES) ∧
    (∀ out : Str, containsClearSeq out = false →
        (s.add_output out).history =
          (s.history ++ rustLines out).drop
            (s.history.length + (rustLines out).length - MAX_HISTORY_LINES)) :=
  ⟨fun outs => foldl_add_output_le outs s hcap,
   fun out hclear => add_output_history_eq s out hcap hclear⟩

/-- Witness for `add_output_capacity_fifo` at the fresh state. -/
theorem add_output_capacity_fifo_witness :
    (([[97, 10, 98]] : List Str).foldl TerminalState.add_output
        (TerminalState.new 1000 800 16)).history.length ≤ MAX_HISTORY_LINES ∧
    ((TerminalState.new 1000 800 16).add_output [97]).history =
      (((TerminalState.new 1000 800 16).history ++ rustLines [97]).drop
        ((TerminalState.new 1000 800 16).history.length + (rustLines [97]).length
          - MAX_HISTORY_LINES)) :=
  ⟨(add_output_capacity_fifo _ (by decide)).1 _,
   (add_output_capacity_fifo _ (by decide)).2 [97] (by decide)⟩

def c4state : TerminalState := TerminalState.new 1000 10 16

/-- C4, counterexample: `TerminalState::new` with a window shorter than
one text row (height 10, line height 16) yields `visibleLines = 0`, yet
at offset 0 `get_visible_content` still returns the input row, so its
length 1 exceeds `visibleLines`. -/
theorem visible_content_bound_ce :
    ¬ (c4state.get_visible_content.length ≤ c4state.viewport.visibleLines ∧
       ((c4state.settings.prompt ++ c4state.currentInput, c4state.settings.colors.input)
           ∈ c4state.get_visible_content ↔ c4state.viewport.offset = 0)) := by
  decide

/-- C4, amended: for every state whose viewport holds at least one row
(`visibleLines ≥ 1`; every state not built from a degenerate sub-row
window) and whose input color differs from the text color (as in the
immutable default settings), `get_visible_content` has length at most
`visibleLines`, and it contains the live input row (prompt ++ current
input, styled with the input color) if and only if the offset is 0. -/
theorem get_visible_content_bound (s : TerminalState)
    (hvl : 1 ≤ s.viewport.visibleLines)
    (hc : s.settings.colors.input ≠ s.settings.colors.text) :
    s.get_visible_content.length ≤ s.viewport.visibleLines ∧
    ((s.settings.prompt ++ s.currentInput, s.settings.colors.input)
        ∈ s.get_visible_content ↔ s.viewport.offset = 0) := by
  have hwin :
      (((s.history.drop s.get_visible_range.1).take
          (s.get_visible_range.2 - s.get_visible_range.1)).map
        (fun line => (line, s.settings.colors.text))).length
        ≤ s.viewport.visibleLines - 1 := by
    simp [TerminalState.get_visible_range]
    omega
  have hnotmem :
      (s.settings.prompt ++ s.currentInput, s.settings.colors.input) ∉
        ((s.history.drop s.get_visible_range.1).take
          (s.get_visible_range.2 - s.get_visible_range.1)).map
          (fun line => (line, s.settings.colors.text)) := by
    intro hmem
    rcases List.mem_map.mp hmem with ⟨line, _, heq⟩
    exact hc (congrArg Prod.snd heq).symm
  unfold TerminalState.get_visible_content
  dsimp only
  by_cases hoff : s.viewport.offset = 0
  · rw [if_pos hoff]
    constructor
    · rw [List.length_append]
      simp only [List.length_cons, List.length_nil]
      omega
    · simp [hoff]
  · rw [if_neg hoff]
    refine ⟨le_trans hwin (by omega), ?_⟩
    constructor
    · intro hmem
      exact absurd hmem hnotmem
    · intro h0
      exact absurd h0 hoff

/-- Witness for `get_visible_content_bound` at the fresh 50-row state. -/
theorem get_visible_content_bound_witness :
    (TerminalState.new 1000 800 16).get_visible_content.length
      ≤ (TerminalState.new 1000 800 16).viewport.visibleLines ∧
    (((TerminalState.new 1000 800 16).settings.prompt
        ++ (TerminalState.new 1000 800 16).currentInput,
      (TerminalState.new 1000 800 16).settings.colors.input)
        ∈ (TerminalState.new 1000 800 16).get_visible_content
      ↔ (TerminalState.new 1000 800 16).viewport.offset = 0) :=
  get_visible_content_bound _ (by decide) (by decide)

theorem add_output_commandHistory (s : TerminalState) (out : Str) :
    (s.add_output out).commandHistory = s.commandHistory := by
  unfold TerminalState.add_output
  split
  · rfl
  · dsimp only
    split <;> rfl

/-- C6: `commit_input` on an empty current input leaves the command
history unchanged while still resetting the cursor to 0 and clearing the
selection; on a non-empty input it appends exactly that input as one new
entry, and evicts exactly the oldest entry once the history is at its
capacity of 100. -/
theorem commit_input_spec (s : TerminalState) :
    (s.currentInput = [] →
      s.commit_input.commandHistory = s.commandHistory ∧
      s.commit_input.cursorPosition = 0 ∧
      s.commit_input.selection = none) ∧
    (s.currentInput ≠ [] → s.commandHistory.length < MAX_COMMAND_HISTORY →
      s.commit_input.commandHistory = s.commandHistory ++ [s.currentInput]) ∧
    (s.currentInput ≠ [] → s.commandHistory.length = MAX_COMMAND_HISTORY →
      s.commit_input.commandHistory = s.commandHistory.drop 1 ++ [s.currentInput]) := by
  refine ⟨fun he => ?_, fun hn hlen => ?_, fun hn hlen => ?_⟩
  · unfold TerminalState.commit_input
    dsimp only
    rw [if_neg (by simp [he])]
    exact ⟨add_output_commandHistory _ _, rfl, rfl⟩
  · unfold TerminalState.commit_input
    dsimp only
    rw [if_pos hn]
    dsimp only
    rw [add_output_commandHistory]
    dsimp only
    rw [if_neg (by simp; omega)]
  · unfold TerminalState.commit_input
    dsimp only
    rw [if_pos hn]
    dsimp only
    rw [add_output_commandHistory]
    dsimp only
    rw [if_pos (by simp; omega)]
    exact List.drop_append_of_le_length
      (by have hM : MAX_COMMAND_HISTORY = 100 := rfl; omega)

def c6state : TerminalState :=
  { history := [], currentInput := [120, 121], cursorPosition := 2,
    settings := TerminalSettings.default,
    viewport := { offset := 0, visibleLines := 10, lineHeight := 16, width := 1000, height := 160 },
    selection := none, commandHistory := [[97], [98]], commandIndex := none,
    visibleLines := 10 }

/-- Witness for `commit_input_spec`: committing `"xy"` onto a two-entry
history appends it, and committing an empty input preserves history. -/
theorem commit_input_spec_witness :
    c6state.commit_input.commandHistory = c6state.commandHistory ++ [c6state.currentInput] ∧
    ((c6state.commit_input).commit_input.commandHistory
        = c6state.commit_input.commandHistory ∧
      (c6state.commit_input).commit_input.cursorPosition = 0 ∧
      (c6state.commit_input).commit_input.selection = none) :=
  ⟨(commit_input_spec c6state).2.1 (by decide) (by decide),
   (commit_input_spec c6state.commit_input).1 (by decide)⟩

theorem handle_key_up_commandHistory (s : TerminalState) :
    s.handle_key_up.commandHistory = s.commandHistory := by
  unfold TerminalState.handle_key_up
  split
  · rfl
  · dsimp only
    split <;> rfl

theorem handle_key_down_commandHistory (s : TerminalState) :
    s.handle_key_down.commandHistory = s.commandHistory := by
  unfold TerminalState.handle_key_down
  split
  · rfl
  · split <;> rfl

theorem handle_key_up_from_live (s : TerminalState)
    (hni : s.commandIndex = none) (hne : s.commandHistory ≠ []) :
    s.handle_key_up.commandIndex = some (s.commandHistory.length - 1) ∧
    s.handle_key_up.currentInput = s.commandHistory.getD (s.commandHistory.length - 1) [] := by
  unfold TerminalState.handle_key_up
  rw [if_neg (by simp [hne])]
  rw [hni]
  dsimp only [Option.getD]
  rw [if_pos (by simpa [List.length_pos] using hne)]
  exact ⟨rfl, rfl⟩

theorem handle_key_up_browsing (s : TerminalState) (i : Nat)
    (hi : s.commandIndex = some i) (h0 : 0 < i) (hne : s.commandHistory ≠ []) :
    s.handle_key_up.commandIndex = some (i - 1) ∧
    s.handle_key_up.currentInput = s.commandHistory.getD (i - 1) [] := by
  unfold TerminalState.handle_key_up
  rw [if_neg (by simp [hne])]
  rw [hi]
  dsimp only [Option.getD]
  rw [if_pos h0]
  exact ⟨rfl, rfl⟩

theorem handle_key_up_floor (s : TerminalState) (h0 : s.commandIndex = some 0) :
    s.handle_key_up = s := by
  cases s with
  | mk hist cur cp st vp sel chist cidx vl =>
    simp only at h0
    subst h0
    unfold TerminalState.handle_key_up
    split
    · rfl
    · rfl

theorem handle_key_down_past_newest (s : TerminalState) (i : Nat)
    (hi : s.commandIndex = some i) (hge : s.commandHistory.length - 1 ≤ i) :
    s.handle_key_down.currentInput = [] ∧
    s.handle_key_down.commandIndex = none ∧
    s.handle_key_down.cursorPosition = 0 := by
  unfold TerminalState.handle_key_down
  rw [hi]
  dsimp only
  rw [if_neg (by omega)]
  exact ⟨rfl, rfl, rfl⟩

/-- C7: command-history navigation. `handle_key_up` and `handle_key_down`
never mutate the stored history; from the Live state (`commandIndex =
none`) with non-empty history, `handle_key_up` enters Browsing at
`length − 1` loading a copy of that entry; from Browsing(i) with `i > 0`
it steps to `i − 1` loading that entry; at Browsing(0) it leaves the
state unchanged (floor 0); and `handle_key_down` at or past the newest
entry clears the current input and returns to Live. -/
theorem history_navigation_spec (s : TerminalState) :
    (s.handle_key_up.commandHistory = s.commandHistory ∧
     s.handle_key_down.commandHistory = s.commandHistory) ∧
    (s.commandIndex = none → s.commandHistory ≠ [] →
      s.handle_key_up.commandIndex = some (s.commandHistory.length - 1) ∧
      s.handle_key_up.currentInput
        = s.commandHistory.getD (s.commandHistory.length - 1) []) ∧
    (∀ i, s.commandIndex = some i → 0 < i → s.commandHistory ≠ [] →
      s.handle_key_up.commandIndex = some (i - 1) ∧
      s.handle_key_up.currentInput = s.commandHistory.getD (i - 1) []) ∧
    (s.commandIndex = some 0 → s.handle_key_up = s) ∧
    (∀ i, s.commandIndex = some i → s.commandHistory.length - 1 ≤ i →
      s.handle_key_down.currentInput = [] ∧
      s.handle_key_down.commandIndex = none) :=
  ⟨⟨handle_key_up_commandHistory s, handle_key_down_commandHistory s⟩,
   fun hni hne => handle_key_up_from_live s hni hne,
   fun i hi h0 hne => handle_key_up_browsing s i hi h0 hne,
   fun h0 => handle_key_up_floor s h0,
   fun i hi hge =>
     ⟨(handle_key_down_past_newest s i hi hge).1,
      (handle_key_down_past_newest s i hi hge).2.1⟩⟩

def c7state : TerminalState :=
  { history := [], currentInput := [], cursorPosition := 0,
    settings := TerminalSettings.default,
    viewport := { offset := 0, visibleLines := 10, lineHeight := 16, width := 1000, height := 160 },
    selection := none, commandHistory := [[97], [98]], commandIndex := none,
    visibleLines := 10 }

def c7browse : TerminalState := { c7state with commandIndex := some 1 }

/-- Witness for `history_navigation_spec`: from Live over history
`["a","b"]` key-up enters Browsing(1) loading `"b"`; from Browsing(1)
key-down clears the input and returns to Live. -/
theorem history_navigation_spec_witness :
    (c7state.handle_key_up.commandIndex = some (c7state.commandHistory.length - 1) ∧
     c7state.handle_key_up.currentInput
       = c7state.commandHistory.getD (c7state.commandHistory.length - 1) []) ∧
    (c7browse.handle_key_down.currentInput = [] ∧
     c7browse.handle_key_down.commandIndex = none) :=
  ⟨(history_navigation_spec c7state).2.1 rfl (by decide),
   (history_navigation_spec c7browse).2.2.2.2 1 rfl (by decide)⟩

/-- Lexicographic order on positions: (line, column). -/
def posLe (a b : Position) : Prop :=
  a.line < b.line ∨ (a.line = b.line ∧ a.column ≤ b.column)

theorem normalize_ordered (sel : Selection) :
    posLe sel.normalize.1 sel.normalize.2 ∧
    (sel.normalize = (sel.start, sel.«end») ∨
     sel.normalize = (sel.«end», sel.start)) := by
  by_cases hc : sel.start.line < sel.«end».line ∨
      (sel.start.line = sel.«end».line ∧ sel.start.column ≤ sel.«end».column)
  · rw [Selection.normalize, if_pos hc]
    exact ⟨hc, Or.inl rfl⟩
  · rw [Selection.normalize, if_neg hc]
    refine ⟨?_, Or.inr rfl⟩
    dsimp only [posLe]
    omega

theorem selLoop_past (a b : Position) :
    ∀ (L : List (Str × Color)) (k : Nat) (r : Str), b.line < k →
      selLoop a b L k r = some r := by
  intro L
  induction L with
  | nil => intro k r h; rfl
  | cons x t ih =>
    intro k r h
    obtain ⟨line, color⟩ := x
    rw [selLoop]
    rw [if_pos (Or.inr h)]
    exact ih (k + 1) r (Nat.lt_succ_of_lt h)

theorem selLoop_single_line (a b : Position) (i : Nat)
    (ha : a.line = i) (hb : b.line = i) (hab : a.column ≤ b.column) :
    ∀ (L : List (Str × Color)) (k : Nat), k ≤ i →
      ∀ line color, L.get? (i - k) = some (line, color) →
        b.column ≤ line.length →
        isCharBoundary line a.column = true →
        isCharBoundary line b.column = true →
        selLoop a b L k [] =
          some ((line.drop a.column).take (b.column - a.column)) := by
  intro L
  induction L with
  | nil =>
    intro k hk line color hget
    simp at hget
  | cons x t ih =>
    intro k hk line color hget hcol hba hbb
    obtain ⟨l0, c0⟩ := x
    rcases Nat.lt_or_ge k i with hlt | hge
    · rw [selLoop, if_pos (Or.inl (by omega))]
      apply ih (k + 1) (by omega) line color ?_ hcol hba hbb
      rw [show i - k = (i - (k + 1)) + 1 by omega] at hget
      simpa using hget
    · have hki : k = i := le_antisymm hk hge
      subst hki
      rw [Nat.sub_self] at hget
      simp only [List.get?] at hget
      injection hget with hget
      injection hget with h1 h2
      subst h1
      rw [selLoop, if_neg (by omega)]
      dsimp only
      rw [if_pos ha.symm, if_pos hb.symm]
      simp only [List.isEmpty_nil, if_true]
      rw [min_eq_left hcol]
      by_cases hlt : a.column < l0.length
      · rw [if_pos hlt]
        have hslice : stringSlice l0 a.column b.column
            = some ((l0.drop a.column).take (b.column - a.column)) := by
          unfold stringSlice
          rw [if_pos ⟨hab, hba, hbb⟩]
        rw [hslice]
        dsimp only
        rw [List.nil_append]
        exact selLoop_past a b t (k + 1) _ (by omega)
      · rw [if_neg hlt]
        have h0 : b.column - a.column = 0 := by omega
        rw [h0, List.take_zero]
        exact selLoop_past a b t (k + 1) [] (by omega)

def c8panic : TerminalState :=
  { (TerminalState.new 1000 800 16) with
      currentInput := [195, 169],
      selection := some ⟨⟨0, 3⟩, ⟨0, 4⟩⟩ }

/-- C8, counterexample: with current input `"é"` (bytes `[195, 169]`,
pasteable from the clipboard) the visible row is `"$ é"` =
`[36, 32, 195, 169]` of byte length 4, and the single-line selection
from column 3 to column 4 has both columns within the line — yet
`get_selected_text` panics (`none`): column 3 falls on the continuation
byte of the two-byte character, so the slice `&line[3..4]` is not on a
char boundary. In particular the result is not the byte substring
`[3, 4)` the claim requires. -/
theorem selected_text_ce :
    c8panic.get_visible_content.map Prod.fst = [[36, 32, 195, 169]] ∧
    c8panic.get_selected_text = none ∧
    c8panic.get_selected_text ≠
      some ((([36, 32, 195, 169] : Str).drop 3).take (4 - 3)) := by
  decide

/-- C8, amended: `normalize` always orders the selection endpoints by
(line, column) regardless of drag direction, returning exactly the two
original endpoints; and for an active single-line selection on a visible
line whose (normalized) end column lies within that line **and whose two
columns lie on UTF-8 char boundaries of that line**, `get_selected_text`
returns, without panicking, exactly the byte substring
`[a.column, b.column)` of that line, where `(a, b)` are the normalized
endpoints. Off a char boundary the slice panics (see the
counterexample). -/
theorem selection_normalize_selected_text (sel : Selection) (s : TerminalState) :
    (posLe sel.normalize.1 sel.normalize.2 ∧
     (sel.normalize = (sel.start, sel.«end») ∨
      sel.normalize = (sel.«end», sel.start))) ∧
    (∀ i line color,
      s.selection = some sel →
      sel.normalize.1.line = i → sel.normalize.2.line = i →
      s.get_visible_content.get? i = some (line, color) →
      sel.normalize.2.column ≤ line.length →
      isCharBoundary line sel.normalize.1.column = true →
      isCharBoundary line sel.normalize.2.column = true →
      s.get_selected_text =
        some ((line.drop sel.normalize.1.column).take
          (sel.normalize.2.column - sel.normalize.1.column))) := by
  refine ⟨normalize_ordered sel, fun i line color hsel ha hb hget hcol hba hbb => ?_⟩
  have hab : sel.normalize.1.column ≤ sel.normalize.2.column := by
    rcases (normalize_ordered sel).1 with h | h
    · rw [ha, hb] at h
      omega
    · exact h.2
  unfold TerminalState.get_selected_text
  rw [hsel]
  dsimp only
  unfold TerminalState.get_text_from_selection
  dsimp only
  exact selLoop_single_line sel.normalize.1 sel.normalize.2 i ha hb hab
    s.get_visible_content 0 (Nat.zero_le i) line color (by simpa using hget)
    hcol hba hbb

def c8state : TerminalState :=
  { (TerminalState.new 1000 800 16) with
      currentInput := [104, 101, 108, 108, 111],
      selection := some ⟨⟨0, 3⟩, ⟨0, 1⟩⟩ }

/-- Witness for `selection_normalize_selected_text`: a reversed
single-line drag over the row `"$ hello"` from column 3 back to column 1
normalizes to (1, 3) and selects the two bytes `" h"` without
panicking. -/
theorem selection_normalize_selected_text_witness :
    posLe (⟨⟨0, 3⟩, ⟨0, 1⟩⟩ : Selection).normalize.1
      (⟨⟨0, 3⟩, ⟨0, 1⟩⟩ : Selection).normalize.2 ∧
    c8state.get_selected_text =
      some ((([36, 32, 104, 101, 108, 108, 111] : Str).drop
          (⟨⟨0, 3⟩, ⟨0, 1⟩⟩ : Selection).normalize.1.column).take
        ((⟨⟨0, 3⟩, ⟨0, 1⟩⟩ : Selection).normalize.2.column
          - (⟨⟨0, 3⟩, ⟨0, 1⟩⟩ : Selection).normalize.1.column)) :=
  ⟨(selection_normalize_selected_text ⟨⟨0, 3⟩, ⟨0, 1⟩⟩ c8state).1.1,
   (selection_normalize_selected_text ⟨⟨0, 3⟩, ⟨0, 1⟩⟩ c8state).2 0
     [36, 32, 104, 101, 108, 108, 111] (TerminalColors.default).input rfl
     (by decide) (by decide) (by decide) (by decide) (by decide) (by decide)⟩
